import Mathlib

/-!
Verification of the ExtractCode CLI event-stream consumer
(`src/extractcode/cli.py`): the live event renderer `extract_event`, the
failure aggregation loop of the `extractcode` command, the summary printer
`display_extract_summary`, and the path relativizer `get_relative_path`.

Modelling conventions:
* Python unicode/bytes strings are modelled by `PyStr`: a Lean `String`
  payload tagged with `isUnicode` (Python 2 `unicode` vs `bytes`/`str`).
* Python string slicing `s[n:]` drops `n` characters; `lstrip('/')` drops
  all leading `'/'` characters.  Both are modelled on the underlying
  character list.
* `toascii(s, translit=True).decode('utf-8', 'replace')` produces a unicode
  string from a bytes string; the concrete transliteration table lives in
  `commoncode.text` (outside this repository's `src/`) and the spec leaves
  it abstract, so it is a parameter `translit : String → String` here.
* The lazy event stream is modelled as a finite `List ExtractEvent`,
  consumed in order exactly once, as the spec requires.
* `echo_stderr` output is modelled by collecting the emitted lines in
  order; click's color argument is modelled as the color name string.
-/

namespace ExtractCode

/-- A Python string value: the character content together with whether the
value is of unicode string type (`compat.unicode`) or a bytes string. -/
structure PyStr where
  isUnicode : Bool
  val : String
deriving DecidableEq

/-- One extraction event from `extract_archives`: source path, terminal
flag, warning messages and error messages.  The event class itself lives
outside `src/` (`extractcode.api`); this record follows the spec's
ExtractionEvent data model. -/
structure ExtractEvent where
  source : PyStr
  done : Bool
  warnings : List String
  errors : List String
deriving DecidableEq

/-- Modelled from the spec: `commoncode.fileutils.file_name` is outside
`src/`; the spec describes it as returning "only the file's base name".
For a posix path this is the segment after the last `'/'`. -/
def file_name (p : String) : String :=
  String.mk ((p.data.reverse.takeWhile (fun c => !(c == '/'))).reverse)

/-- Python `s.lstrip('/')`: remove every leading `'/'` character. -/
def lstrip_slash (s : String) : String :=
  String.mk (s.data.dropWhile (fun c => c == '/'))

/-- Python `s[n:]` on a unicode string: drop the first `n` characters. -/
def pySlice (s : String) (n : Nat) : String :=
  String.mk (s.data.drop n)

/-- `get_relative_path(path, len_base_path, base_is_dir)` from
`src/extractcode/cli.py`.  `fileutils.fsdecode` (outside `src/`) is the
identity on an already-unicode posix string, which is how the function is
reached from this module, so it is dropped here. -/
def get_relative_path (path : String) (len_base_path : Nat) (base_is_dir : Bool) : String :=
  let rel_path := if base_is_dir then pySlice path len_base_path else file_name path
  lstrip_slash rel_path

/-- Modelled from the spec: `toascii(s, translit=True).decode('utf-8',
'replace')` turns a bytes string into a unicode string by best-effort
transliteration; the transliteration itself is the parameter `translit`. -/
def toasciiDecode (translit : String → String) (s : PyStr) : PyStr :=
  ⟨true, translit s.val⟩

/-- Modelled from the spec: `commoncode.fileutils.as_posixpath` is outside
`src/`; it replaces every backslash path separator with `'/'`, keeping the
string type. -/
def as_posixpath (s : PyStr) : PyStr :=
  ⟨s.isUnicode, String.mk (s.val.data.map (fun c => if c == '\\' then '/' else c))⟩

/-- The `if not isinstance(source, compat.unicode): source = toascii(...)`
pattern: decode a bytes string, leave a unicode string unchanged. -/
def pyDecodeIfBytes (translit : String → String) (s : PyStr) : PyStr :=
  if s.isUnicode then s else toasciiDecode translit s

/-- The `extract_event` closure of the `extractcode` command: render the
live progress line for one event (`item_show_func` of the progress
manager).  Python truthiness `source and X or ''` is the emptiness test on
the decoded source string. -/
def extract_event (translit : String → String) (len_base_path : Nat) (base_is_dir : Bool)
    (quiet verbose : Bool) (item : Option ExtractEvent) : String :=
  if quiet then ""
  else
    match item with
    | none => ""
    | some item =>
      let source := pyDecodeIfBytes translit item.source
      if verbose then
        if item.done then ""
        else
          let line := if source.val = "" then ""
            else get_relative_path source.val len_base_path base_is_dir
          "Extracting: " ++ line
      else
        let line := if source.val = "" then "" else file_name source.val
        "Extracting: " ++ line

/-- The source string displayed by `display_extract_summary` for one
failure event: `as_posixpath`, then — only when the result is not already
unicode — decode it and make it relative.  (The `get_relative_path` call
sits inside the `isinstance` branch in the source.) -/
def summary_source (translit : String → String) (len_base_path : Nat) (base_is_dir : Bool)
    (xev : ExtractEvent) : String :=
  let source := as_posixpath xev.source
  if source.isUnicode then source.val
  else get_relative_path (toasciiDecode translit source).val len_base_path base_is_dir

/-- The lines `display_extract_summary` emits for one failure event: one
per error, then one per warning. -/
def event_lines (translit : String → String) (len_base_path : Nat) (base_is_dir : Bool)
    (xev : ExtractEvent) : List String :=
  let source := summary_source translit len_base_path base_is_dir xev
  xev.errors.map (fun e => "ERROR extracting: " ++ source ++ ": " ++ e)
    ++ xev.warnings.map (fun w => "WARNING extracting: " ++ source ++ ": " ++ w)

/-- One iteration of the `display_extract_summary` loop: or the event's
error/warning emptiness tests into `has_errors` / `has_warnings` and emit
its lines. -/
def summaryStep (translit : String → String) (len_base_path : Nat) (base_is_dir : Bool)
    (acc : Bool × Bool × List String) (xev : ExtractEvent) : Bool × Bool × List String :=
  (acc.1 || !xev.errors.isEmpty,
   acc.2.1 || !xev.warnings.isEmpty,
   acc.2.2 ++ event_lines translit len_base_path base_is_dir xev)

/-- The `display_extract_summary` closure continued: fold `summaryStep`
over the failure list, then emit `Extracting done.` colored by severity. -/
def display_extract_summary (translit : String → String) (len_base_path : Nat)
    (base_is_dir : Bool) (failures : List ExtractEvent) : List String × String :=
  let r := failures.foldl (summaryStep translit len_base_path base_is_dir) (false, false, [])
  let has_errors := r.1
  let has_warnings := r.2.1
  let summary_color := if has_errors then "red" else if has_warnings then "yellow" else "green"
  (r.2.2 ++ ["Extracting done."], summary_color)

/-- `xev.done and (xev.warnings or xev.errors)`: the guard both aggregation
loops apply to each event. -/
def failing (xev : ExtractEvent) : Bool :=
  xev.done && (!xev.warnings.isEmpty || !xev.errors.isEmpty)

/-- `xev.done and xev.errors` truthiness: what makes the run exit nonzero. -/
def hasErrSig (xev : ExtractEvent) : Bool :=
  xev.done && !xev.errors.isEmpty

/-- The aggregation state of one `extractcode` run: the deduplicated
failure list, the set of already-seen signatures, and the error flag.
Modelled from the spec: the Python set holds `repr(xev)` strings and the
spec states the signature "uniquely identifies the event's full content",
so the set is modelled as a list of the events themselves (full-content
equality).  `has_extract_errors` holds a Python truthy/falsy value
(`False` or an error list); only its truthiness is ever used, so it is a
`Bool`. -/
structure AggState where
  extract_result_with_errors : List ExtractEvent
  unique_extract_events_with_errors : List ExtractEvent
  has_extract_errors : Bool
deriving DecidableEq

/-- The initial aggregation state of a run. -/
def initState : AggState := ⟨[], [], false⟩

/-- The body of the non-quiet event loop (`for xev in extraction_events`). -/
def observe (st : AggState) (xev : ExtractEvent) : AggState :=
  if failing xev then
    let has := st.has_extract_errors || !xev.errors.isEmpty
    if xev ∈ st.unique_extract_events_with_errors then
      { st with has_extract_errors := has }
    else
      { extract_result_with_errors := st.extract_result_with_errors ++ [xev],
        unique_extract_events_with_errors := st.unique_extract_events_with_errors ++ [xev],
        has_extract_errors := has }
  else st

/-- The body of the quiet event loop (`for xev in extractibles`). -/
def observeQuiet (st : AggState) (xev : ExtractEvent) : AggState :=
  if failing xev then { st with has_extract_errors := st.has_extract_errors || !xev.errors.isEmpty }
  else st

/-- One event step of the run, in either display mode. -/
def stepEvent (quiet : Bool) (st : AggState) (xev : ExtractEvent) : AggState :=
  if quiet then observeQuiet st xev else observe st xev

/-- The whole aggregation loop of a run over a finite event stream. -/
def runAggregate (quiet : Bool) (events : List ExtractEvent) : AggState :=
  events.foldl (stepEvent quiet) initState

/-- The observable outcome of one `extractcode` run: the live progress
lines, the summary lines, the summary color, and the exit status passed to
`ctx.exit`. -/
structure RunResult where
  progressLines : List String
  summaryLines : List String
  summaryColor : Option String
  rc : Nat
deriving DecidableEq

/-- The `extractcode` command body after the event stream is open: in
quiet mode only the error flag is accumulated and nothing is displayed;
otherwise each event is rendered live and the deduplicating loop feeds
`display_extract_summary`.  (The initial `Extracting archives...` banner
is presentation only and not modelled.)  `rc = 1 if has_extract_errors
else 0`. -/
def extractcode (translit : String → String) (len_base_path : Nat) (base_is_dir : Bool)
    (quiet verbose : Bool) (events : List ExtractEvent) : RunResult :=
  let st := runAggregate quiet events
  let rc := if st.has_extract_errors then 1 else 0
  if quiet then ⟨[], [], none, rc⟩
  else
    let s := display_extract_summary translit len_base_path base_is_dir
      st.extract_result_with_errors
    ⟨events.map (fun e => extract_event translit len_base_path base_is_dir false verbose (some e)),
     s.1, some s.2, rc⟩

/-- Left fold of the dedup step starting from an already-seen list. -/
def dedupAcc (acc : List ExtractEvent) : List ExtractEvent → List ExtractEvent
  | [] => acc
  | e :: rest => if e ∈ acc then dedupAcc acc rest else dedupAcc (acc ++ [e]) rest

/-- Remove duplicates keeping each element's first occurrence, in order. -/
def dedupKeepFirst : List ExtractEvent → List ExtractEvent
  | [] => []
  | e :: rest => e :: dedupKeepFirst (rest.filter (fun x => decide (x ≠ e)))
termination_by l => l.length
decreasing_by
  simp only [List.length_cons]
  exact Nat.lt_succ_of_le (List.length_filter_le _ _)

/-! ### Shared lemmas -/

/-- After dropping a leading run of `p`-characters nothing satisfying `p`
is left at the front. -/
theorem takeWhile_dropWhile_self {α : Type} (p : α → Bool) (l : List α) :
    (l.dropWhile p).takeWhile p = [] := by
  induction l with
  | nil => rfl
  | cons a l ih =>
    by_cases h : p a = true
    · simpa [List.dropWhile_cons, h] using ih
    · simp [List.dropWhile_cons, List.takeWhile_cons, h]

/-- One step of either aggregation loop updates the error flag by or-ing in
`hasErrSig`. -/
theorem stepEvent_has (quiet : Bool) (st : AggState) (e : ExtractEvent) :
    (stepEvent quiet st e).has_extract_errors = (st.has_extract_errors || hasErrSig e) := by
  rcases e with ⟨s, d, w, er⟩
  cases quiet <;> cases d <;> cases hw : w.isEmpty <;> cases he : er.isEmpty <;>
    simp [stepEvent, observe, observeQuiet, failing, hasErrSig, hw, he] <;>
    split <;> simp

/-- The error flag after folding the loop over a stream suffix. -/
theorem foldl_stepEvent_has (quiet : Bool) (events : List ExtractEvent) (st : AggState) :
    (events.foldl (stepEvent quiet) st).has_extract_errors
      = (st.has_extract_errors || events.any hasErrSig) := by
  induction events generalizing st with
  | nil => simp
  | cons e rest ih => simp [ih, stepEvent_has, Bool.or_assoc]

/-- The error flag of a whole run is `any hasErrSig` over the stream, in
either display mode. -/
theorem runAggregate_has (quiet : Bool) (events : List ExtractEvent) :
    (runAggregate quiet events).has_extract_errors = events.any hasErrSig := by
  simp [runAggregate, foldl_stepEvent_has, initState]

/-- An event rejected by the loop guard cannot carry terminal errors. -/
theorem hasErrSig_eq_false_of_not_failing {e : ExtractEvent} (h : failing e = false) :
    hasErrSig e = false := by
  cases hd : e.done
  · simp [hasErrSig, hd]
  · simp [failing, hd] at h
    simp [hasErrSig, hd, h]

/-- For an event passing the loop guard, `hasErrSig` is the emptiness test
on its error list. -/
theorem hasErrSig_eq_of_failing {e : ExtractEvent} (h : failing e = true) :
    hasErrSig e = !e.errors.isEmpty := by
  have hd : e.done = true := by
    simp [failing] at h
    exact h.1
  simp [hasErrSig, hd]

/-- Membership is preserved by first-occurrence deduplication. -/
theorem mem_dedupKeepFirst (x : ExtractEvent) (l : List ExtractEvent) :
    x ∈ dedupKeepFirst l ↔ x ∈ l := by
  induction l using dedupKeepFirst.induct with
  | case1 => simp [dedupKeepFirst]
  | case2 e rest ih =>
    simp only [dedupKeepFirst, List.mem_cons, ih, List.mem_filter, decide_eq_true_eq]
    constructor
    · rintro (rfl | ⟨hx, _⟩)
      · exact Or.inl rfl
      · exact Or.inr hx
    · rintro (rfl | hx)
      · exact Or.inl rfl
      · by_cases hxe : x = e
        · exact Or.inl hxe
        · exact Or.inr ⟨hx, hxe⟩

/-- First-occurrence deduplication yields a duplicate-free list. -/
theorem nodup_dedupKeepFirst (l : List ExtractEvent) : (dedupKeepFirst l).Nodup := by
  induction l using dedupKeepFirst.induct with
  | case1 => simp [dedupKeepFirst]
  | case2 e rest ih =>
    simp only [dedupKeepFirst, List.nodup_cons]
    refine ⟨fun hmem => ?_, ih⟩
    have := (mem_dedupKeepFirst e _).mp hmem
    simp [List.mem_filter] at this

/-- The accumulator form of deduplication is an append of the fresh
first occurrences. -/
theorem dedupAcc_eq (l : List ExtractEvent) : ∀ acc : List ExtractEvent,
    dedupAcc acc l = acc ++ dedupKeepFirst (l.filter (fun x => decide (x ∉ acc))) := by
  induction l with
  | nil => intro acc; simp [dedupAcc, dedupKeepFirst]
  | cons e rest ih =>
    intro acc
    by_cases hm : e ∈ acc
    · simp only [dedupAcc, if_pos hm, List.filter_cons]
      simp [hm, ih acc]
    · have hfilter : rest.filter (fun x => decide (x ∉ acc ++ [e]))
          = (rest.filter (fun x => decide (x ∉ acc))).filter (fun x => decide (x ≠ e)) := by
        rw [List.filter_filter]
        apply List.filter_congr
        intro x _
        by_cases h1 : x ∈ acc <;> by_cases h2 : x = e <;> simp [h1, h2]
      simp only [dedupAcc, if_neg hm, List.filter_cons]
      rw [ih (acc ++ [e]), hfilter]
      simp [hm, dedupKeepFirst]

/-- The non-quiet loop, started at a state whose failure list and seen set
coincide, computes the accumulator-style dedup of the guarded events and
or-s `hasErrSig` into the flag. -/
theorem foldl_observe_eq (events : List ExtractEvent) : ∀ (acc : List ExtractEvent) (b : Bool),
    events.foldl observe ⟨acc, acc, b⟩
      = ⟨dedupAcc acc (events.filter failing), dedupAcc acc (events.filter failing),
         b || events.any hasErrSig⟩ := by
  induction events with
  | nil => intro acc b; simp [dedupAcc]
  | cons e rest ih =>
    intro acc b
    simp only [List.foldl_cons, List.filter_cons, List.any_cons]
    by_cases hf : failing e = true
    · by_cases hm : e ∈ acc
      · have hobs : observe ⟨acc, acc, b⟩ e = ⟨acc, acc, b || !e.errors.isEmpty⟩ := by
          simp [observe, hf, hm]
        rw [hobs, ih]
        simp [hf, dedupAcc, hm, hasErrSig_eq_of_failing hf, Bool.or_assoc]
      · have hobs : observe ⟨acc, acc, b⟩ e
            = ⟨acc ++ [e], acc ++ [e], b || !e.errors.isEmpty⟩ := by
          simp [observe, hf, hm]
        rw [hobs, ih]
        simp [hf, dedupAcc, hm, hasErrSig_eq_of_failing hf, Bool.or_assoc]
    · have hf' : failing e = false := by simpa using hf
      have hobs : observe ⟨acc, acc, b⟩ e = ⟨acc, acc, b⟩ := by
        simp [observe, hf']
      rw [hobs, ih]
      simp [hf', hasErrSig_eq_false_of_not_failing hf']

/-- The quiet loop body never touches the failure list or the seen set. -/
theorem observeQuiet_frame (st : AggState) (e : ExtractEvent) :
    (observeQuiet st e).extract_result_with_errors = st.extract_result_with_errors ∧
    (observeQuiet st e).unique_extract_events_with_errors
      = st.unique_extract_events_with_errors := by
  unfold observeQuiet
  split <;> exact ⟨rfl, rfl⟩

/-- The whole quiet loop never touches the failure list or the seen set. -/
theorem foldl_observeQuiet_frame (events : List ExtractEvent) : ∀ st : AggState,
    (events.foldl observeQuiet st).extract_result_with_errors
        = st.extract_result_with_errors ∧
    (events.foldl observeQuiet st).unique_extract_events_with_errors
        = st.unique_extract_events_with_errors := by
  induction events with
  | nil => intro st; exact ⟨rfl, rfl⟩
  | cons e rest ih =>
    intro st
    have h := observeQuiet_frame st e
    have h' := ih (observeQuiet st e)
    exact ⟨h'.1.trans h.1, h'.2.trans h.2⟩

/-- The summary loop's fold: flags become `any` tests and the emitted
lines are the concatenation of the per-event lines, in order. -/
theorem foldl_summaryStep_eq (translit : String → String) (len_base_path : Nat)
    (base_is_dir : Bool) (failures : List ExtractEvent) :
    ∀ (b1 b2 : Bool) (ls : List String),
    failures.foldl (summaryStep translit len_base_path base_is_dir) (b1, b2, ls)
      = (b1 || failures.any (fun e => !e.errors.isEmpty),
         b2 || failures.any (fun e => !e.warnings.isEmpty),
         ls ++ (failures.map (event_lines translit len_base_path base_is_dir)).flatten) := by
  induction failures with
  | nil => intro b1 b2 ls; simp
  | cons e rest ih =>
    intro b1 b2 ls
    simp [summaryStep, ih, Bool.or_assoc]

/-- Relativizing the empty source string yields the empty string. -/
theorem get_relative_path_empty (n : Nat) (b : Bool) : get_relative_path "" n b = "" := by
  cases b
  · rfl
  · simp [get_relative_path, pySlice, lstrip_slash]

/-- The base name of the empty string is empty. -/
theorem file_name_empty : file_name "" = "" := rfl

/-- The non-quiet run state in closed form: deduplicated guarded events
twice over and the `any` error flag. -/
theorem runAggregate_false_eq (events : List ExtractEvent) :
    runAggregate false events
      = ⟨dedupKeepFirst (events.filter failing), dedupKeepFirst (events.filter failing),
         events.any hasErrSig⟩ := by
  have hso : stepEvent false = observe := by
    funext st e
    simp [stepEvent]
  have h2 : dedupAcc [] (events.filter failing)
      = dedupKeepFirst (events.filter failing) := by
    rw [dedupAcc_eq]
    simp
  unfold runAggregate initState
  rw [hso, foldl_observe_eq events [] false, h2]
  simp

/-! ### Claims -/

/-- C1 (code_bug evidence): the summary loop applies `get_relative_path`
only inside the `not isinstance(source, compat.unicode)` branch, so an
already-unicode source is printed absolute: with base `/a/b`
(`len_base_path = 4`, directory) and a terminal event for unicode source
`/a/b/c/d.zip` carrying error `boom`, the emitted line keeps the absolute
path even though the resolver would yield `c/d.zip`, contradicting the
claim that every source, including unicode ones, is relativized. -/
theorem c1_unicode_source_not_relativized :
    (display_extract_summary id 4 true
        [⟨⟨true, "/a/b/c/d.zip"⟩, true, [], ["boom"]⟩]).1
      = ["ERROR extracting: /a/b/c/d.zip: boom", "Extracting done."] ∧
    get_relative_path "/a/b/c/d.zip" 4 true = "c/d.zip" ∧
    (display_extract_summary id 4 true
        [⟨⟨false, "/a/b/c/d.zip"⟩, true, [], ["boom"]⟩]).1
      = ["ERROR extracting: c/d.zip: boom", "Extracting done."] :=
  ⟨by decide, by decide, by decide⟩

/-- C2: the exit status is 1 exactly when some terminal event carries a
non-empty error list, and 0 otherwise, in either display mode. -/
theorem c2_exit_status (translit : String → String) (len_base_path : Nat)
    (base_is_dir : Bool) (quiet verbose : Bool) (events : List ExtractEvent) :
    ((extractcode translit len_base_path base_is_dir quiet verbose events).rc = 1
        ↔ ∃ e ∈ events, e.done = true ∧ e.errors ≠ []) ∧
    ((extractcode translit len_base_path base_is_dir quiet verbose events).rc = 0
        ↔ ¬ ∃ e ∈ events, e.done = true ∧ e.errors ≠ []) := by
  have hrc : (extractcode translit len_base_path base_is_dir quiet verbose events).rc
      = if events.any hasErrSig then 1 else 0 := by
    cases quiet <;> simp [extractcode, runAggregate_has]
  have hx : (∃ e ∈ events, e.done = true ∧ e.errors ≠ [])
      ↔ events.any hasErrSig = true := by
    rw [List.any_eq_true]
    constructor
    · rintro ⟨e, he, hd, herr⟩
      exact ⟨e, he, by simp [hasErrSig, hd, herr]⟩
    · rintro ⟨e, he, hsig⟩
      have := hsig
      simp [hasErrSig] at this
      exact ⟨e, he, this.1, this.2⟩
  rw [hrc]
  rcases Bool.eq_false_or_eq_true (events.any hasErrSig) with h | h <;> simp [h, hx]

/-- C3: the computed exit status is identical with `quiet = true` and
`quiet = false` over the same stream; only the displayed output differs. -/
theorem c3_quiet_invariance (translit : String → String) (len_base_path : Nat)
    (base_is_dir : Bool) (verbose : Bool) (events : List ExtractEvent) :
    (extractcode translit len_base_path base_is_dir true verbose events).rc
      = (extractcode translit len_base_path base_is_dir false verbose events).rc := by
  simp [extractcode, runAggregate_has]

/-- C4: the accumulated failure list is the guarded event subsequence with
duplicates removed keeping first occurrences, hence it lists each distinct
full-content combination exactly once, in first-arrival order, while
same-source events with different content stay distinct. -/
theorem c4_dedup_first_arrival (events : List ExtractEvent) :
    ((runAggregate false events).extract_result_with_errors
        = dedupKeepFirst (events.filter failing)) ∧
    (runAggregate false events).extract_result_with_errors.Nodup ∧
    (∀ e : ExtractEvent,
        e ∈ (runAggregate false events).extract_result_with_errors
          ↔ e ∈ events.filter failing) := by
  rw [runAggregate_false_eq]
  exact ⟨rfl, nodup_dedupKeepFirst _, fun e => mem_dedupKeepFirst e _⟩

/-- C5: an event with `done = false` — even one carrying errors — leaves
the aggregation state unchanged in both quiet and non-quiet modes: it is
never appended to the failure list and never sets the error flag. -/
theorem c5_nonterminal_noop (quiet : Bool) (st : AggState) (e : ExtractEvent)
    (h : e.done = false) : stepEvent quiet st e = st := by
  have hf : failing e = false := by simp [failing, h]
  cases quiet <;> simp [stepEvent, observe, observeQuiet, hf]

/-- C5 witness: a non-terminal event with a non-empty error list leaves
the initial state untouched. -/
theorem c5_nonterminal_noop_witness :
    stepEvent false initState ⟨⟨true, "/a/b/x.zip"⟩, false, [], ["boom"]⟩ = initState :=
  c5_nonterminal_noop false initState ⟨⟨true, "/a/b/x.zip"⟩, false, [], ["boom"]⟩ rfl

/-- C6: once the error flag is true after some prefix of the stream it
stays true after every longer prefix, in either display mode. -/
theorem c6_monotonic_flag (quiet : Bool) (events : List ExtractEvent) (i j : Nat)
    (hij : i ≤ j)
    (h : (runAggregate quiet (events.take i)).has_extract_errors = true) :
    (runAggregate quiet (events.take j)).has_extract_errors = true := by
  rw [runAggregate_has] at h ⊢
  have hj : j = i + (j - i) := (Nat.add_sub_cancel' hij).symm
  rw [hj, List.take_add, List.any_append, h]
  simp

/-- C6 witness: with one error-bearing terminal event, the flag set after
the first event is still set at the same or later prefix. -/
theorem c6_monotonic_flag_witness :
    (runAggregate false
        (([⟨⟨true, "/a/b/x.zip"⟩, true, [], ["boom"]⟩] : List ExtractEvent).take 1)
      ).has_extract_errors = true :=
  c6_monotonic_flag false [⟨⟨true, "/a/b/x.zip"⟩, true, [], ["boom"]⟩] 1 1
    (by decide) (by decide)

/-- C7: `get_relative_path` drops the first `len_base_path` characters
when the base is a directory and keeps only the base file name when the
base is a single file; in both cases every leading `/` is stripped so the
result never begins with a separator; and on base `/a/b` (length 4,
directory) with source `/a/b/c/d.zip` it returns `c/d.zip`. -/
theorem c7_get_relative_path :
    (∀ (p : String) (n : Nat) (b : Bool),
        (get_relative_path p n b).data.takeWhile (fun c => c == '/') = []) ∧
    (∀ (p : String) (n : Nat), get_relative_path p n true = lstrip_slash (pySlice p n)) ∧
    (∀ (p : String) (n : Nat), get_relative_path p n false = lstrip_slash (file_name p)) ∧
    get_relative_path "/a/b/c/d.zip" 4 true = "c/d.zip" := by
  refine ⟨?_, fun p n => rfl, fun p n => rfl, by decide⟩
  intro p n b
  cases b <;> simp [get_relative_path, lstrip_slash, takeWhile_dropWhile_self]

/-- C8: the live renderer returns the empty string when quiet or when the
event is absent; in verbose mode the empty string for a terminal event and
otherwise `Extracting: ` plus the source's relative path; and in normal
mode `Extracting: ` plus the source's base file name for every event,
terminal ones included. -/
theorem c8_renderer (translit : String → String) (len_base_path : Nat)
    (base_is_dir : Bool) (quiet verbose : Bool) (item : Option ExtractEvent)
    (e : ExtractEvent) :
    (extract_event translit len_base_path base_is_dir true verbose item = "") ∧
    (extract_event translit len_base_path base_is_dir quiet verbose none = "") ∧
    (extract_event translit len_base_path base_is_dir false true (some e)
        = (if e.done then ""
           else "Extracting: " ++ get_relative_path
              (pyDecodeIfBytes translit e.source).val len_base_path base_is_dir)) ∧
    (extract_event translit len_base_path base_is_dir false false (some e)
        = "Extracting: " ++ file_name (pyDecodeIfBytes translit e.source).val) := by
  refine ⟨rfl, ?_, ?_, ?_⟩
  · cases quiet <;> rfl
  · cases hd : e.done
    · by_cases hs : (pyDecodeIfBytes translit e.source).val = ""
      · simp [extract_event, hd, hs, get_relative_path_empty]
      · simp [extract_event, hd, hs]
    · simp [extract_event, hd]
  · by_cases hs : (pyDecodeIfBytes translit e.source).val = ""
    · simp [extract_event, hs, file_name_empty]
    · simp [extract_event, hs]

/-- C9: the summary's severity color is red when some listed event has a
non-empty error list, else yellow when some has a non-empty warning list,
else green, and the emitted lines are the per-event lines followed by
exactly one final `Extracting done.` status line. -/
theorem c9_summary_tier (translit : String → String) (len_base_path : Nat)
    (base_is_dir : Bool) (failures : List ExtractEvent) :
    ((display_extract_summary translit len_base_path base_is_dir failures).2
        = (if failures.any (fun e => !e.errors.isEmpty) then "red"
           else if failures.any (fun e => !e.warnings.isEmpty) then "yellow"
           else "green")) ∧
    ((display_extract_summary translit len_base_path base_is_dir failures).1
        = (failures.map (event_lines translit len_base_path base_is_dir)).flatten
            ++ ["Extracting done."]) ∧
    ((display_extract_summary translit len_base_path base_is_dir failures).1.getLast?
        = some "Extracting done.") := by
  unfold display_extract_summary
  rw [foldl_summaryStep_eq]
  simp

/-- C10: a quiet run accumulates no failure records and no signatures —
only the error flag, which matches the non-quiet run's — and renders no
summary and no progress lines. -/
theorem c10_quiet_no_accumulation (translit : String → String) (len_base_path : Nat)
    (base_is_dir : Bool) (verbose : Bool) (events : List ExtractEvent) :
    ((runAggregate true events).extract_result_with_errors = []) ∧
    ((runAggregate true events).unique_extract_events_with_errors = []) ∧
    ((runAggregate true events).has_extract_errors
        = (runAggregate false events).has_extract_errors) ∧
    ((extractcode translit len_base_path base_is_dir true verbose events).summaryLines
        = []) ∧
    ((extractcode translit len_base_path base_is_dir true verbose events).progressLines
        = []) := by
  have hq : stepEvent true = observeQuiet := by
    funext st e
    simp [stepEvent]
  have hframe := foldl_observeQuiet_frame events initState
  refine ⟨?_, ?_, ?_, ?_, ?_⟩
  · unfold runAggregate
    rw [hq]
    exact hframe.1
  · unfold runAggregate
    rw [hq]
    exact hframe.2
  · rw [runAggregate_has, runAggregate_has]
  · simp [extractcode]
  · simp [extractcode]

end ExtractCode
